import Mathlib

/-!
Verification of the sign-alpha-server trading pipeline core.

The definitions below are a shallow embedding of the Go sources:
  - `src/main.go` (server): the `AppState`, the coin catalog served by
    `GET /api/coins`, and the `POST /api/symbol` swap-coordinator handler;
  - `src/handlers.go`: the `Server` price hub (`UpdatePrice`, `broadcast`,
    `removeClient`, `ResetPrice`);
  - `src/binance.go`: the `BinanceClient` feed (`ChangeSymbol`, `Run`,
    `readMessages`);
  - the TUI client (`fetchData`, `model.Update`, `renderSparkline`).

Prices are embedded as rationals (`ℚ`); the claims under study compare,
subtract and divide prices but never rely on float rounding.  Timestamps
are embedded as their millisecond integer payload.  Stateful Go code
becomes explicit state passing; goroutine steps are modelled as atomic
steps of a sequential event loop (the locks in the source serialise them).
-/

namespace SignAlpha

/-! ## Coin catalog and symbol swap coordination (server `main.go`) -/

/-- The static coin catalog, exactly the list served by `GET /api/coins`
in `main.go` (symbol, display name). -/
def coinCatalog : List (String × String) :=
  [("btcusdt", "Bitcoin (BTC)"),
   ("ethusdt", "Ethereum (ETH)"),
   ("solusdt", "Solana (SOL)"),
   ("bnbusdt", "Binance Coin (BNB)"),
   ("xrpusdt", "Ripple (XRP)"),
   ("dogeusdt", "Dogecoin (DOGE)")]

/-- Modelled from the spec: `GetCoinName` is defined in a repository file
that is not under `src/` (only its callers are).  Per the spec the
CoinCatalog is a "static ordered list of `{symbol, displayName}` pairs",
and the swap handler detects an unknown symbol by
`GetCoinName(sym) == sym`, so `GetCoinName` returns the display name of a
catalogued symbol and echoes the symbol itself when it is unknown. -/
def GetCoinName (symbol : String) : String :=
  match coinCatalog.find? (fun c => c.1 == symbol) with
  | some c => c.2
  | none => symbol

/-- The `AppState` of `main.go`: current symbol and coin name, mutated
atomically together by `SetSymbol` under one lock. -/
structure AppState where
  symbol : String
  coinName : String
deriving DecidableEq, Repr

/-- State of the `BinanceClient` (feed client) of `binance.go`: the target
symbol, whether a connection is open, and the single-slot `restart`
channel (capacity 1, so a `Bool`: a pending signal is not duplicated). -/
structure FeedState where
  symbol : String
  connOpen : Bool
  restartPending : Bool
deriving DecidableEq, Repr

/-- The feed's `ChangeSymbol`: set the new symbol, close an open
connection, and signal a planned restart through the single-slot channel
(the `select`/`default` send is a no-op when a signal is already
pending, so the slot simply becomes occupied). -/
def ChangeSymbol (newSymbol : String) (st : FeedState) : FeedState :=
  { st with symbol := newSymbol, connOpen := false, restartPending := true }

/-- Whole-system state touched by the swap coordinator: the app's symbol
context, the statistics engine (opaque per the spec; modelled as its list
of accumulated samples, with `reset` clearing it to the empty sentinel),
the hub's stored price, and the feed client state. -/
structure SystemState where
  app : AppState
  stats : List ℚ
  currentPrice : ℚ
  feed : FeedState
deriving DecidableEq, Repr

/-- One mutation step of the `POST /api/symbol` handler, in source order:
`appState.SetSymbol`, `ResetProcessor`, `server.ResetPrice`,
`binanceClient.ChangeSymbol`. -/
inductive Mutation where
  | setSymbol (symbol name : String)
  | resetStats
  | resetPrice
  | signalFeed (symbol : String)
deriving DecidableEq, Repr

/-- Semantics of each handler mutation on the system state.
`resetPrice` is `Server.ResetPrice` of `handlers.go` (stored price set to
the sentinel 0); `resetStats` is `ResetProcessor` (the opaque engine's
`reset`); `signalFeed` is the feed's `ChangeSymbol`. -/
def applyMutation (st : SystemState) : Mutation → SystemState
  | .setSymbol s n => { st with app := ⟨s, n⟩ }
  | .resetStats => { st with stats := [] }
  | .resetPrice => { st with currentPrice := 0 }
  | .signalFeed s => { st with feed := ChangeSymbol s st.feed }

/-- Folding a list of handler mutations over the system state. -/
def applyMutations (st : SystemState) (ms : List Mutation) : SystemState :=
  ms.foldl applyMutation st

/-- Outcome of the `POST /api/symbol` handler. -/
inductive PostSymbolResult where
  | invalidRequest
  | unknownSymbol
  | ok (symbol name : String)
deriving DecidableEq, Repr

/-- The `POST /api/symbol` handler of `main.go`.  Input `none` stands for
a request body that fails to decode.  The handler returns its HTTP
outcome together with the ordered list of mutations it performs. -/
def handlePostSymbol (body : Option String) : PostSymbolResult × List Mutation :=
  match body with
  | none => (.invalidRequest, [])
  | some sym =>
    let newName := GetCoinName sym
    if newName = sym then
      (.unknownSymbol, [])
    else
      (.ok sym newName,
       [.setSymbol sym newName, .resetStats, .resetPrice, .signalFeed sym])

/-! ## Feed client retry loop (`binance.go`) -/

/-- Outcome of one iteration of `BinanceClient.Run`: either the dial
fails, or the dial succeeds and the stream later drops (in `Run`,
`readMessages` returning is the only way a successful connection ends). -/
inductive ConnOutcome where
  | dialFail
  | streamDrop
deriving DecidableEq, Repr

/-- One iteration of the `Run` loop, returning the retry delay in seconds
and the next client state.  A dial failure sleeps 5 and retries leaving
the state alone; a stream drop consumes a pending restart signal and
reconnects immediately, or sleeps 2 when no signal is pending. -/
def runIteration (o : ConnOutcome) (st : FeedState) : Nat × FeedState :=
  match o with
  | .dialFail => (5, st)
  | .streamDrop =>
    if st.restartPending then
      (0, { st with restartPending := false, connOpen := false })
    else
      (2, { st with connOpen := false })

/-- The delays produced by running a sequence of connection outcomes
through the `Run` loop. -/
def runDelays (outs : List ConnOutcome) (st : FeedState) : List Nat :=
  match outs with
  | [] => []
  | o :: rest =>
    let (d, st1) := runIteration o st
    d :: runDelays rest st1

/-! ## Feed message decoding (`BinanceClient.readMessages`) -/

/-- A normalized price update, as pushed into the price channel:
the decoded trade price and the event's own millisecond timestamp
(`time.UnixMilli(trade.T)`). -/
structure PriceUpdate where
  price : ℚ
  timeMillis : Int
deriving DecidableEq, Repr

/-- An inbound websocket message as `readMessages` sees it: either the
JSON envelope fails to unmarshal (`garbage`), or it decodes to a trade
whose price string parses to a number (`priceOk = true`, price carried)
or does not parse (`priceOk = false`, in which case the Go `price`
variable stays `0`). -/
inductive RawMsg where
  | garbage
  | trade (priceOk : Bool) (price : ℚ) (timeMillis : Int)
deriving DecidableEq, Repr

/-- Processing of one message in the `readMessages` loop: an
unmarshallable message is skipped (`continue`); a trade is forwarded as a
`PriceUpdate` exactly when its decoded price is strictly positive (an
unparsable price string leaves the price at 0, which fails `price > 0`).
The emitted update carries the decoded price and the event's own
timestamp field. -/
def processMessage : RawMsg → Option PriceUpdate
  | .garbage => none
  | .trade priceOk price timeMillis =>
    let p := if priceOk then price else 0
    if 0 < p then some ⟨p, timeMillis⟩ else none

/-- The full `readMessages` loop over the messages delivered before the
read error that ends the stream: every message is processed in order and
the loop continues past dropped messages. -/
def readMessages (msgs : List RawMsg) : List PriceUpdate :=
  msgs.filterMap processMessage

/-! ## Price hub broadcast (`handlers.go`) -/

/-- One step of the hub's subscriber-set history.  Sinks are identified
by numbers.  `subscribe` is the `HandleWebSocket` registration
(`s.clients[conn] = true`); `unsubscribe` is `removeClient` after a read
error on the sink's own connection; `broadcast` is `Server.broadcast`,
where `fail s = true` says the write to sink `s` returns an error for
this update. -/
inductive HubEvent where
  | subscribe (sink : Nat)
  | unsubscribe (sink : Nat)
  | broadcast (price : ℚ) (fail : Nat → Bool)

/-- The delivery attempts and the surviving subscriber set of one
`broadcast` call: the loop attempts one `WriteMessage` per registered
client, and a client whose write fails is closed and removed
(`go s.removeClient(client)`; the pending write lock it takes is served
before any later broadcast's read lock, so the removal is in effect from
the next broadcast on). -/
def broadcastRun (fail : Nat → Bool) : List Nat → List Nat × List Nat
  | [] => ([], [])
  | c :: cs =>
    let (att, rem) := broadcastRun fail cs
    (c :: att, if fail c then rem else c :: rem)

/-- Registration of `HandleWebSocket`: a Go map insert, so adding an
already-present sink leaves the set unchanged. -/
def hubSubscribe (sink : Nat) (cs : List Nat) : List Nat :=
  if sink ∈ cs then cs else sink :: cs

/-- The subscriber set after one hub event. -/
def hubStep (cs : List Nat) : HubEvent → List Nat
  | .subscribe s => hubSubscribe s cs
  | .unsubscribe s => cs.filter (fun c => c ≠ s)
  | .broadcast _ fail => (broadcastRun fail cs).2

/-- The subscriber set reached from the empty initial set
(`make(map[*websocket.Conn]bool)`) by a list of hub events. -/
def runHub (evs : List HubEvent) : List Nat :=
  evs.foldl hubStep []

/-! ## Dashboard Core (TUI client) -/

/-- Response of `GET /api/symbol` as decoded by the TUI. -/
structure SymbolResponse where
  symbol : String
  name : String
deriving DecidableEq, Repr

/-- Response of `GET /api/price` as decoded by the TUI. -/
structure PriceResponse where
  price : ℚ
deriving DecidableEq, Repr

/-- Response of `GET /api/stats` as decoded by the TUI. -/
structure StatsResponse where
  movingAverage : ℚ
  high : ℚ
  low : ℚ
deriving DecidableEq, Repr

/-- One row of `GET /api/history` as decoded by the TUI. -/
structure HistoryTrade where
  symbol : String
  price : ℚ
  timestampMillis : Int
deriving DecidableEq, Repr

/-- The TUI's `DashboardData` snapshot (all fields zero-valued in the Go
`DashboardData{}` literal that `fetchData` starts from). -/
structure DashboardData where
  symbol : String
  coinName : String
  price : ℚ
  prevPrice : ℚ
  high : ℚ
  low : ℚ
  movingAverage : ℚ
  change : ℚ
  changePercent : ℚ
  connected : Bool
  error : String
deriving DecidableEq, Repr

/-- The zero value `DashboardData{}`. -/
def emptyData : DashboardData :=
  { symbol := "", coinName := "", price := 0, prevPrice := 0, high := 0,
    low := 0, movingAverage := 0, change := 0, changePercent := 0,
    connected := false, error := "" }

/-- Outcome of one fetch stage of `fetchData`: the HTTP GET fails
(`connFail`), the GET succeeds but the JSON body does not decode
(`decodeFail`, in which case the Go code silently keeps the zero fields
and moves on), or the stage yields a payload. -/
inductive StageResult (α : Type) where
  | connFail
  | decodeFail
  | ok (payload : α)
deriving DecidableEq, Repr

/-- The TUI's `fetchData`: build a fresh snapshot from the zero value,
staging symbol, then price, then stats; the first stage whose GET fails
sets the error field and returns at once, skipping the later stages;
`Connected` is set only after all three stages ran. -/
def fetchData (sy : StageResult SymbolResponse) (pr : StageResult PriceResponse)
    (stg : StageResult StatsResponse) : DashboardData :=
  match sy with
  | .connFail =>
    { emptyData with error := "Server not running. Start with \x27make run\x27" }
  | _ =>
    let d1 := match sy with
      | .ok s => { emptyData with symbol := s.symbol, coinName := s.name }
      | _ => emptyData
    match pr with
    | .connFail => { d1 with error := "Failed to fetch price" }
    | _ =>
      let d2 := match pr with
        | .ok p => { d1 with price := p.price }
        | _ => d1
      match stg with
      | .connFail => { d2 with error := "Failed to fetch stats" }
      | _ =>
        let d3 := match stg with
          | .ok s =>
            { d2 with movingAverage := s.movingAverage, high := s.high, low := s.low }
          | _ => d2
        { d3 with connected := true }

/-- The TUI view modes. -/
inductive ViewMode where
  | dashboardView
  | coinSelectView
  | historyView
deriving DecidableEq, Repr

/-- A coin entry as decoded from `GET /api/coins`. -/
structure CoinInfo where
  symbol : String
  name : String
deriving DecidableEq, Repr

/-- The TUI `model`. -/
structure Model where
  mode : ViewMode
  data : DashboardData
  history : List ℚ
  dbHistory : List HistoryTrade
  quitting : Bool
  coins : List CoinInfo
  coinCursor : Nat
  switching : Bool
  historyScroll : Nat
deriving DecidableEq, Repr

/-- The initial TUI model: coin selection first, empty history. -/
def initialModel : Model :=
  { mode := .coinSelectView, data := emptyData, history := [],
    dbHistory := [], quitting := false, coins := [], coinCursor := 0,
    switching := false, historyScroll := 0 }

/-- Messages delivered to the TUI update loop. -/
inductive Msg where
  | key (k : String)
  | tickMsg
  | dataMsg (d : DashboardData)
  | coinsMsg (cs : List CoinInfo)
  | historyMsg (ts : List HistoryTrade)
  | symbolChangedMsg
deriving Repr

/-- Commands the update function issues (modelling the returned
`tea.Cmd`; `tea.Batch` becomes a list). -/
inductive Cmd where
  | fetchDataCmd
  | tickCmd
  | fetchCoinsCmd
  | fetchHistoryCmd
  | changeSymbolCmd (symbol : String)
  | quitCmd
deriving DecidableEq, Repr

/-- Key handling of `model.Update` (the `tea.KeyMsg` case), dispatching
on the current view mode. -/
def updateKey (k : String) (m : Model) : Model × List Cmd :=
  match m.mode with
  | .dashboardView =>
    if k = "ctrl+c" ∨ k = "q" then
      ({ m with quitting := true }, [.quitCmd])
    else if k = "c" then
      ({ m with mode := .coinSelectView, coinCursor := 0 }, [.fetchCoinsCmd])
    else if k = "h" then
      ({ m with mode := .historyView, historyScroll := 0 }, [.fetchHistoryCmd])
    else (m, [])
  | .coinSelectView =>
    if k = "ctrl+c" ∨ k = "q" ∨ k = "esc" then
      ({ m with mode := .dashboardView }, [])
    else if k = "up" ∨ k = "k" then
      (if 0 < m.coinCursor then { m with coinCursor := m.coinCursor - 1 } else m, [])
    else if k = "down" ∨ k = "j" then
      (if m.coinCursor < m.coins.length - 1 then
        { m with coinCursor := m.coinCursor + 1 }
       else m, [])
    else if k = "enter" ∨ k = " " then
      if m.coins ≠ [] then
        ({ m with switching := true },
         [.changeSymbolCmd ((m.coins.getD m.coinCursor ⟨"", ""⟩).symbol)])
      else (m, [])
    else (m, [])
  | .historyView =>
    if k = "ctrl+c" ∨ k = "q" ∨ k = "esc" then
      ({ m with mode := .dashboardView }, [.fetchDataCmd, .tickCmd])
    else if k = "up" ∨ k = "k" then
      (if 0 < m.historyScroll then
        { m with historyScroll := m.historyScroll - 1 }
       else m, [])
    else if k = "down" ∨ k = "j" then
      (if m.historyScroll < m.dbHistory.length - 15 then
        { m with historyScroll := m.historyScroll + 1 }
       else m, [])
    else if k = "r" then (m, [.fetchHistoryCmd])
    else (m, [])

/-- The `dataMsg` case of `model.Update`: clear the history when the held
symbol is non-empty and differs from the incoming one; compute change and
percent change only when both prices are positive and the symbol is
unchanged; record the previous price; adopt the incoming snapshot; then
append a positive price to the history, evicting the head once the length
exceeds 20. -/
def updateData (d : DashboardData) (m : Model) : Model :=
  let hist0 := if m.data.symbol ≠ "" ∧ m.data.symbol ≠ d.symbol then [] else m.history
  let d1 :=
    if 0 < m.data.price ∧ 0 < d.price ∧ m.data.symbol = d.symbol then
      { d with change := d.price - m.data.price,
               changePercent := (d.price - m.data.price) / m.data.price * 100 }
    else d
  let d2 := { d1 with prevPrice := m.data.price }
  let hist1 :=
    if 0 < d.price then
      let h := hist0 ++ [d.price]
      if 20 < h.length then h.drop 1 else h
    else hist0
  { m with data := d2, history := hist1 }

/-- The TUI `model.Update` function. -/
def update (msg : Msg) (m : Model) : Model × List Cmd :=
  match msg with
  | .key k => updateKey k m
  | .tickMsg =>
    if m.mode = .dashboardView ∧ ¬m.switching then
      (m, [.fetchDataCmd, .tickCmd])
    else (m, [.tickCmd])
  | .dataMsg d => (updateData d m, [])
  | .coinsMsg cs =>
    let m1 := { m with coins := cs }
    match cs.findIdx? (fun c => c.symbol = m.data.symbol) with
    | some i => ({ m1 with coinCursor := i }, [])
    | none => (m1, [])
  | .historyMsg ts => ({ m with dbHistory := ts }, [])
  | .symbolChangedMsg =>
    ({ m with switching := false, mode := .dashboardView, history := [] },
     [.fetchDataCmd, .tickCmd])

/-- Which branch of `model.View` renders, mirroring the branch structure
of `View`, `viewDashboard`, `viewCoinSelect` and `viewHistory`: the
`errorBox` branch renders only the header, the error message and the quit
hint — no price, statistics or sparkline. -/
inductive ViewKind where
  | goodbye
  | coinSelectBox
  | historyBox
  | errorBox
  | connectingBox
  | switchingBox
  | dashboardBox
deriving DecidableEq, Repr

/-- The branch `model.View` takes. -/
def viewKind (m : Model) : ViewKind :=
  if m.quitting then .goodbye
  else
    match m.mode with
    | .coinSelectView => .coinSelectBox
    | .historyView => .historyBox
    | .dashboardView =>
      if m.data.error ≠ "" then .errorBox
      else if ¬m.data.connected then .connectingBox
      else if m.switching then .switchingBox
      else .dashboardBox

/-! ## Sparkline rendering (`model.renderSparkline`) -/

/-- Color of one sparkline glyph. -/
inductive SparkColor where
  | up
  | down
  | neutral
deriving DecidableEq, Repr

/-- Result of rendering the sparkline: the placeholder text when fewer
than 2 samples are held, otherwise one (level, color) pair per sample,
the level indexing the 8 block characters. -/
inductive SparkRender where
  | placeholder
  | glyphs (gs : List (Nat × SparkColor))
deriving DecidableEq, Repr

/-- The level of one sample: `normalized := (v - mn) / rang`, then
`idx := int(normalized * 7)` (truncation, which is floor here since
`normalized ≥ 0`), clamped to 7 when it overflows the character table. -/
def sparkLevel (mn rang : ℚ) (v : ℚ) : Nat :=
  let normalized := (v - mn) / rang
  let idx := (Int.floor (normalized * 7)).toNat
  if 8 ≤ idx then 7 else idx

/-- Color of one glyph from its predecessor (`i > 0 && v > prev` is up,
`i > 0 && v < prev` is down, otherwise neutral — the first glyph has no
predecessor and is neutral). -/
def sparkColor (prev : Option ℚ) (v : ℚ) : SparkColor :=
  match prev with
  | none => .neutral
  | some p => if p < v then .up else if v < p then .down else .neutral

/-- The glyph loop of `renderSparkline`, carrying the previous sample. -/
def sparkGlyphs (mn rang : ℚ) : List ℚ → Option ℚ → List (Nat × SparkColor)
  | [], _ => []
  | v :: rest, prev =>
    (sparkLevel mn rang v, sparkColor prev v) :: sparkGlyphs mn rang rest (some v)

/-- The TUI's `renderSparkline`: placeholder under 2 samples; otherwise
take the minimum and maximum of the history (scanned from
`history[0]`), set `rang := max - min` replaced by 1 when it is 0, and
render each sample's level and color.  This is the source's divisor,
`max - min` with a zero fallback - not the spec's `max(1e-9, max - min)`. -/
def renderSparkline (hist : List ℚ) : SparkRender :=
  match hist with
  | [] => .placeholder
  | [_] => .placeholder
  | h :: t =>
    let mn := (h :: t).foldl min h
    let mx := (h :: t).foldl max h
    let rang := if mx - mn = 0 then 1 else mx - mn
    .glyphs (sparkGlyphs mn rang (h :: t) none)

/-- Sparkline rendering as the spec's words state it: identical except
that the divisor is `max(1e-9, max - min)`. -/
def specSparkline (hist : List ℚ) : SparkRender :=
  match hist with
  | [] => .placeholder
  | [_] => .placeholder
  | h :: t =>
    let mn := (h :: t).foldl min h
    let mx := (h :: t).foldl max h
    let rang := max ((1 : ℚ) / 1000000000) (mx - mn)
    .glyphs (sparkGlyphs mn rang (h :: t) none)

/-! ## Helper lemmas -/

/-- A symbol outside the catalog is echoed back by `GetCoinName` (the
condition the handler uses to reject it). -/
theorem GetCoinName_of_not_mem (sym : String)
    (h : sym ∉ coinCatalog.map Prod.fst) : GetCoinName sym = sym := by
  unfold GetCoinName
  cases hfind : coinCatalog.find? (fun c => c.1 == sym) with
  | none => rfl
  | some c =>
    exfalso
    have hc : c ∈ coinCatalog := List.mem_of_find?_eq_some hfind
    have hp : c.1 = sym := by
      have := List.find?_some hfind
      simpa using this
    exact h (List.mem_map.mpr ⟨c, hc, hp⟩)

/-! ## Claim theorems -/

/-- C1: for every swap request with a symbol present in the CoinCatalog,
the handler performs its mutations in the fixed order SetSymbol (symbol
and display name in one atomic step), reset statistics, reset stored
price, signal the feed client — and at the moment the feed is signalled
(after the first three mutations) the statistics and the stored price are
already in their reset sentinel state while the feed is still untouched. -/
theorem swap_ordering (sym : String) (st : SystemState)
    (hmem : sym ∈ coinCatalog.map Prod.fst) :
    (handlePostSymbol (some sym)).2 =
      [.setSymbol sym (GetCoinName sym), .resetStats, .resetPrice, .signalFeed sym] ∧
    (applyMutations st ((handlePostSymbol (some sym)).2.take 3)).stats = [] ∧
    (applyMutations st ((handlePostSymbol (some sym)).2.take 3)).currentPrice = 0 ∧
    (applyMutations st ((handlePostSymbol (some sym)).2.take 3)).app =
      ⟨sym, GetCoinName sym⟩ ∧
    (applyMutations st ((handlePostSymbol (some sym)).2.take 3)).feed = st.feed ∧
    applyMutations st (handlePostSymbol (some sym)).2 =
      { st with app := ⟨sym, GetCoinName sym⟩, stats := [], currentPrice := 0,
                feed := ChangeSymbol sym st.feed } := by
  have hname : GetCoinName sym ≠ sym := by
    simp only [coinCatalog, List.map, List.mem_cons, List.not_mem_nil, or_false] at hmem
    rcases hmem with rfl | rfl | rfl | rfl | rfl | rfl <;> decide
  refine ⟨?_, ?_, ?_, ?_, ?_, ?_⟩ <;>
    simp [handlePostSymbol, hname, applyMutations, applyMutation]

/-- Concrete system state used to witness C1. -/
def stC1 : SystemState :=
  ⟨⟨"btcusdt", "Bitcoin (BTC)"⟩, [97000, 97001], 97001, ⟨"btcusdt", true, false⟩⟩

/-- Witness for C1 at symbol "ethusdt" on a running system state. -/
theorem swap_ordering_witness :
    "ethusdt" ∈ coinCatalog.map Prod.fst ∧
    ((handlePostSymbol (some "ethusdt")).2 =
      [.setSymbol "ethusdt" (GetCoinName "ethusdt"), .resetStats, .resetPrice,
       .signalFeed "ethusdt"] ∧
     (applyMutations stC1 ((handlePostSymbol (some "ethusdt")).2.take 3)).stats = [] ∧
     (applyMutations stC1 ((handlePostSymbol (some "ethusdt")).2.take 3)).currentPrice = 0 ∧
     (applyMutations stC1 ((handlePostSymbol (some "ethusdt")).2.take 3)).app =
       ⟨"ethusdt", GetCoinName "ethusdt"⟩ ∧
     (applyMutations stC1 ((handlePostSymbol (some "ethusdt")).2.take 3)).feed = stC1.feed ∧
     applyMutations stC1 (handlePostSymbol (some "ethusdt")).2 =
       { stC1 with app := ⟨"ethusdt", GetCoinName "ethusdt"⟩, stats := [],
                   currentPrice := 0, feed := ChangeSymbol "ethusdt" stC1.feed }) :=
  ⟨by decide, swap_ordering "ethusdt" stC1 (by decide)⟩

/-- C2: a swap request whose symbol is not in the CoinCatalog fails with
a client error (`unknownSymbol`) and performs no mutation: the handler's
mutation list is empty and the symbol context, statistics, stored price
and feed state are all unchanged. -/
theorem swap_unknown_no_mutation (sym : String) (st : SystemState)
    (h : sym ∉ coinCatalog.map Prod.fst) :
    (handlePostSymbol (some sym)).1 = .unknownSymbol ∧
    (handlePostSymbol (some sym)).2 = [] ∧
    applyMutations st (handlePostSymbol (some sym)).2 = st ∧
    (applyMutations st (handlePostSymbol (some sym)).2).app = st.app ∧
    (applyMutations st (handlePostSymbol (some sym)).2).stats = st.stats ∧
    (applyMutations st (handlePostSymbol (some sym)).2).currentPrice = st.currentPrice ∧
    (applyMutations st (handlePostSymbol (some sym)).2).feed = st.feed := by
  have hg : GetCoinName sym = sym := GetCoinName_of_not_mem sym h
  refine ⟨?_, ?_, ?_, ?_, ?_, ?_, ?_⟩ <;> simp [handlePostSymbol, hg, applyMutations]

/-- Concrete system state used to witness C2. -/
def stC2 : SystemState :=
  ⟨⟨"solusdt", "Solana (SOL)"⟩, [150], 150, ⟨"solusdt", true, false⟩⟩

/-- Witness for C2 at the unknown symbol "adausdt". -/
theorem swap_unknown_no_mutation_witness :
    "adausdt" ∉ coinCatalog.map Prod.fst ∧
    ((handlePostSymbol (some "adausdt")).1 = .unknownSymbol ∧
     (handlePostSymbol (some "adausdt")).2 = [] ∧
     applyMutations stC2 (handlePostSymbol (some "adausdt")).2 = stC2 ∧
     (applyMutations stC2 (handlePostSymbol (some "adausdt")).2).app = stC2.app ∧
     (applyMutations stC2 (handlePostSymbol (some "adausdt")).2).stats = stC2.stats ∧
     (applyMutations stC2 (handlePostSymbol (some "adausdt")).2).currentPrice =
       stC2.currentPrice ∧
     (applyMutations stC2 (handlePostSymbol (some "adausdt")).2).feed = stC2.feed) :=
  ⟨by decide, swap_unknown_no_mutation "adausdt" stC2 (by decide)⟩

/-- The attempts of one broadcast are exactly the registered sinks. -/
theorem broadcastRun_fst (fail : Nat → Bool) (cs : List Nat) :
    (broadcastRun fail cs).1 = cs := by
  induction cs with
  | nil => rfl
  | cons c cs ih => simp [broadcastRun, ih]

/-- The surviving sinks of one broadcast are those whose write succeeded. -/
theorem broadcastRun_snd (fail : Nat → Bool) (cs : List Nat) :
    (broadcastRun fail cs).2 = cs.filter (fun c => !fail c) := by
  induction cs with
  | nil => rfl
  | cons c cs ih =>
    simp only [broadcastRun, ih, List.filter]
    cases hfc : fail c <;> simp

/-- Each hub step only ever adds the sink being subscribed. -/
theorem hubStep_mem (cs : List Nat) (e : HubEvent) (s : Nat)
    (hs : s ∉ cs) (hne : e ≠ .subscribe s) : s ∉ hubStep cs e := by
  cases e with
  | subscribe t =>
    have hts : t ≠ s := fun h => hne (by rw [h])
    simp only [hubStep, hubSubscribe]
    split
    · exact hs
    · simp only [List.mem_cons]
      rintro (rfl | hmem)
      · exact hts rfl
      · exact hs hmem
  | unsubscribe t =>
    simp only [hubStep]
    intro hmem
    exact hs (List.mem_of_mem_filter hmem)
  | broadcast p fail =>
    simp only [hubStep, broadcastRun_snd]
    intro hmem
    exact hs (List.mem_of_mem_filter hmem)

/-- A sink absent from the set stays absent as long as it does not
re-subscribe. -/
theorem not_mem_foldl_hubStep (evs : List HubEvent) (cs : List Nat) (s : Nat)
    (hs : s ∉ cs) (hsub : HubEvent.subscribe s ∉ evs) :
    s ∉ evs.foldl hubStep cs := by
  induction evs generalizing cs with
  | nil => exact hs
  | cons e rest ih =>
    simp only [List.foldl_cons]
    have hne : e ≠ .subscribe s := fun h => hsub (by rw [h]; exact List.mem_cons_self _ _)
    exact ih (hubStep cs e) (hubStep_mem cs e s hs hne)
      (fun h => hsub (List.mem_cons_of_mem _ h))

/-- The subscriber set never holds duplicates (it is a Go map). -/
theorem runHub_nodup (evs : List HubEvent) : (runHub evs).Nodup := by
  suffices h : ∀ cs : List Nat, cs.Nodup → (evs.foldl hubStep cs).Nodup by
    exact h [] List.nodup_nil
  induction evs with
  | nil => exact fun cs h => h
  | cons e rest ih =>
    intro cs hcs
    refine ih (hubStep cs e) ?_
    cases e with
    | subscribe t =>
      simp only [hubStep, hubSubscribe]
      split
      · exact hcs
      · exact List.Nodup.cons (by assumption) hcs
    | unsubscribe t => exact List.Nodup.filter _ hcs
    | broadcast p fail => rw [hubStep, broadcastRun_snd]; exact List.Nodup.filter _ hcs

/-- C3: on every broadcast, each sink currently in the subscriber set
receives exactly one delivery attempt (the attempt list is exactly the
subscriber set, which holds no duplicates), and a sink whose write fails
is removed and absent from the subscriber set after every later event
until it re-subscribes — so no later broadcast attempts delivery to it. -/
theorem hub_broadcast_delivery (pre post : List HubEvent) (p : ℚ)
    (fail : Nat → Bool) (s : Nat) (hmem : s ∈ runHub pre) :
    (broadcastRun fail (runHub pre)).1 = runHub pre ∧
    (broadcastRun fail (runHub pre)).1.count s = 1 ∧
    (fail s = true → HubEvent.subscribe s ∉ post →
      s ∉ runHub (pre ++ HubEvent.broadcast p fail :: post)) := by
  refine ⟨broadcastRun_fst fail (runHub pre), ?_, ?_⟩
  · rw [broadcastRun_fst]
    exact List.count_eq_one_of_mem (runHub_nodup pre) hmem
  · intro hfail hsub
    rw [runHub, List.foldl_append, List.foldl_cons]
    refine not_mem_foldl_hubStep post _ s ?_ hsub
    show s ∉ hubStep (runHub pre) (.broadcast p fail)
    rw [hubStep, broadcastRun_snd]
    simp [hfail]

/-- Witness for C3: two subscribed sinks, sink 2 fails the write. -/
theorem hub_broadcast_delivery_witness :
    2 ∈ runHub [.subscribe 1, .subscribe 2] ∧
    ((broadcastRun (fun c => c == 2) (runHub [.subscribe 1, .subscribe 2])).1 =
       runHub [.subscribe 1, .subscribe 2] ∧
     (broadcastRun (fun c => c == 2) (runHub [.subscribe 1, .subscribe 2])).1.count 2 = 1 ∧
     ((fun c => c == 2) 2 = true → HubEvent.subscribe 2 ∉ [HubEvent.broadcast 5 (fun c => c == 2)] →
       2 ∉ runHub ([.subscribe 1, .subscribe 2] ++
         HubEvent.broadcast 3 (fun c => c == 2) ::
           [HubEvent.broadcast 5 (fun c => c == 2)]))) :=
  ⟨by decide,
   hub_broadcast_delivery [.subscribe 1, .subscribe 2]
     [HubEvent.broadcast 5 (fun c => c == 2)] 3 (fun c => c == 2) 2 (by decide)⟩

/-- Any run of consecutive dial failures leaves the client state alone. -/
theorem runDelays_dialFail (n : Nat) (st : FeedState) :
    runDelays (List.replicate n .dialFail) st = List.replicate n 5 := by
  induction n with
  | zero => rfl
  | succ k ih => simp [List.replicate, runDelays, runIteration, ih]

/-- C4: in the feed client's connect/stream/retry loop, a dial failure
always waits exactly 5 units and retries with the state untouched (also
across any number of consecutive dial failures — a fixed constant, not a
backoff sequence); a stream drop with a pending planned-restart signal
reconnects with no delay and consumes exactly that one signal; a stream
drop with no pending signal waits exactly 2 units. -/
theorem feed_retry_policy (st : FeedState) (n : Nat) :
    runIteration .dialFail st = (5, st) ∧
    runDelays (List.replicate n .dialFail) st = List.replicate n 5 ∧
    (st.restartPending = true →
      runIteration .streamDrop st =
        (0, { st with restartPending := false, connOpen := false })) ∧
    (st.restartPending = false →
      runIteration .streamDrop st = (2, { st with connOpen := false })) ∧
    (ChangeSymbol "ethusdt" st).restartPending = true := by
  refine ⟨rfl, runDelays_dialFail n st, ?_, ?_, rfl⟩
  · intro h; simp [runIteration, h]
  · intro h; simp [runIteration, h]

/-- Witness for C4 on a concrete client state with a pending restart. -/
theorem feed_retry_policy_witness :
    (FeedState.mk "btcusdt" true true).restartPending = true ∧
    runIteration .streamDrop ⟨"btcusdt", true, true⟩ = (0, ⟨"btcusdt", false, false⟩) ∧
    runDelays (List.replicate 3 .dialFail) ⟨"btcusdt", true, true⟩ = [5, 5, 5] := by
  refine ⟨rfl, ?_, ?_⟩
  · exact (feed_retry_policy ⟨"btcusdt", true, true⟩ 3).2.2.1 rfl
  · exact (feed_retry_policy ⟨"btcusdt", true, true⟩ 3).2.1

/-- C5: an inbound feed message that is undecodable or whose decoded
price is non-positive yields no `PriceUpdate` and the read loop continues
(the emitted stream is as if the message were absent); a message that
does yield an update carries exactly the decoded trade price and the
event's own millisecond timestamp (the update has no other source of
time: its fields come from the message alone). -/
theorem feed_message_handling (m : RawMsg) (pre post : List RawMsg)
    (priceOk : Bool) (p : ℚ) (t : Int) (u : PriceUpdate) :
    (processMessage m = none →
      readMessages (pre ++ m :: post) = readMessages (pre ++ post)) ∧
    processMessage .garbage = none ∧
    (¬(priceOk = true ∧ 0 < p) → processMessage (.trade priceOk p t) = none) ∧
    (processMessage (.trade priceOk p t) = some u →
      u.price = p ∧ u.timeMillis = t ∧ priceOk = true ∧ 0 < p) := by
  refine ⟨?_, rfl, ?_, ?_⟩
  · intro h
    simp [readMessages, List.filterMap_append, List.filterMap_cons, h]
  · intro h
    cases priceOk with
    | false => simp [processMessage]
    | true =>
      have hp : ¬0 < p := fun hlt => h ⟨rfl, hlt⟩
      simp [processMessage, hp]
  · intro h
    cases priceOk with
    | false => simp [processMessage] at h
    | true =>
      by_cases hp : 0 < p
      · simp [processMessage, hp] at h
        exact ⟨by rw [← h], by rw [← h], rfl, hp⟩
      · simp [processMessage, hp] at h

/-- Witness for C5: a dropped garbage message, a dropped non-positive
trade, and a forwarded trade carrying its own price and timestamp. -/
theorem feed_message_handling_witness :
    processMessage (.trade true 0 99) = none ∧
    readMessages [.garbage, .trade true 0 99, .trade true 5 7] =
      readMessages [.garbage, .trade true 5 7] ∧
    (processMessage (.trade true 5 7) = some ⟨5, 7⟩ →
      (PriceUpdate.mk 5 7).price = 5 ∧ (PriceUpdate.mk 5 7).timeMillis = 7 ∧
        true = true ∧ (0 : ℚ) < 5) := by
  refine ⟨?_, ?_, ?_⟩
  · exact (feed_message_handling .garbage [] [] true 0 99 ⟨0, 0⟩).2.2.1
      (by intro h; exact absurd h.2 (by decide))
  · exact (feed_message_handling (.trade true 0 99) [.garbage] [.trade true 5 7]
      true 0 99 ⟨0, 0⟩).1
      ((feed_message_handling .garbage [] [] true 0 99 ⟨0, 0⟩).2.2.1
        (by intro h; exact absurd h.2 (by decide)))
  · exact (feed_message_handling (.trade true 5 7) [] [] true 5 7 ⟨5, 7⟩).2.2.2

/-- A model holding Ethereum data, about to receive a stale Bitcoin poll
result (the user swapped from btcusdt to ethusdt; a poll issued before
the swap answers late). -/
def staleModel : Model :=
  { initialModel with
    mode := ViewMode.dashboardView,
    data := { emptyData with
      symbol := "ethusdt", coinName := "Ethereum (ETH)", price := 100,
      connected := true },
    history := [100] }

/-- A stale poll result still tagged with the old symbol. -/
def staleData : DashboardData :=
  { emptyData with
    symbol := "btcusdt", coinName := "Bitcoin (BTC)", price := 0,
    connected := true }

/-- Counterexample to C6: a poll result whose symbol differs from the
then-current one is NOT discarded — `model.Update` adopts it into the
dashboard state (the stored snapshot changes and now carries the stale
symbol, and the price history is mutated as well). -/
theorem stale_poll_counterexample :
    staleData.symbol ≠ staleModel.data.symbol ∧
    (update (.dataMsg staleData) staleModel).1.data ≠ staleModel.data ∧
    (update (.dataMsg staleData) staleModel).1.data.symbol = staleData.symbol ∧
    (update (.dataMsg staleData) staleModel).1.history ≠ staleModel.history := by
  exact ⟨by decide, by decide, by decide, by decide⟩

/-- C6 amended: a poll result whose symbol differs from the held one is
applied to the dashboard state (symbol, price and the other snapshot
fields are adopted); what the symbol check actually guards is the
derived state: the price history is cleared before any append and the
change fields are not recomputed across the symbol boundary. -/
theorem stale_poll_applied (m : Model) (d : DashboardData)
    (hheld : m.data.symbol ≠ "") (hdiff : d.symbol ≠ m.data.symbol) :
    (update (.dataMsg d) m).1.data.symbol = d.symbol ∧
    (update (.dataMsg d) m).1.data.price = d.price ∧
    (update (.dataMsg d) m).1.data.change = d.change ∧
    (update (.dataMsg d) m).1.data.changePercent = d.changePercent ∧
    (update (.dataMsg d) m).1.data.prevPrice = m.data.price ∧
    (update (.dataMsg d) m).1.history = (if 0 < d.price then [d.price] else []) := by
  have hc2 : ¬(0 < m.data.price ∧ 0 < d.price ∧ m.data.symbol = d.symbol) :=
    fun h => hdiff h.2.2.symm
  have hc1 : m.data.symbol ≠ "" ∧ m.data.symbol ≠ d.symbol := ⟨hheld, Ne.symm hdiff⟩
  by_cases hp : 0 < d.price <;>
    simp [update, updateData, hc1, hc2, hp]

/-- Witness for the amended C6 on the concrete stale scenario. -/
theorem stale_poll_applied_witness :
    staleModel.data.symbol ≠ "" ∧ staleData.symbol ≠ staleModel.data.symbol ∧
    ((update (.dataMsg staleData) staleModel).1.data.symbol = staleData.symbol ∧
     (update (.dataMsg staleData) staleModel).1.data.price = staleData.price ∧
     (update (.dataMsg staleData) staleModel).1.data.change = staleData.change ∧
     (update (.dataMsg staleData) staleModel).1.data.changePercent =
       staleData.changePercent ∧
     (update (.dataMsg staleData) staleModel).1.data.prevPrice =
       staleModel.data.price ∧
     (update (.dataMsg staleData) staleModel).1.history =
       (if 0 < staleData.price then [staleData.price] else [])) :=
  ⟨by decide, by decide,
   stale_poll_applied staleModel staleData (by decide) (by decide)⟩

/-- C7: a poll in which a fetch stage's GET fails produces a snapshot
with a non-empty error field and `Connected = false`, skips the later
stages (their fields stay at the zero defaults of the fresh
`DashboardData{}`), and the dashboard view takes the branch that renders
only the error message; a fully successful poll clears the error field
again; and the snapshot stored by the update loop is the freshly fetched
one, with only change, percent change and previous price recomputed
relative to the old snapshot — never any other mixture of old and new
fields. -/
theorem poll_failure_shortcircuit (sy : StageResult SymbolResponse)
    (pr : StageResult PriceResponse) (stg : StageResult StatsResponse)
    (m : Model) (d : DashboardData) :
    (sy = .connFail ∨ pr = .connFail ∨ stg = .connFail →
      (fetchData sy pr stg).error ≠ "" ∧ (fetchData sy pr stg).connected = false) ∧
    (sy = .connFail →
      fetchData sy pr stg =
        { emptyData with error := "Server not running. Start with \x27make run\x27" }) ∧
    (pr = .connFail →
      (fetchData sy pr stg).price = 0 ∧ (fetchData sy pr stg).movingAverage = 0 ∧
      (fetchData sy pr stg).high = 0 ∧ (fetchData sy pr stg).low = 0) ∧
    (stg = .connFail →
      (fetchData sy pr stg).movingAverage = 0 ∧ (fetchData sy pr stg).high = 0 ∧
      (fetchData sy pr stg).low = 0) ∧
    ((fetchData sy pr stg).error ≠ "" →
      viewKind { m with
        mode := .dashboardView, quitting := false,
        data := fetchData sy pr stg } = .errorBox) ∧
    (sy ≠ .connFail → pr ≠ .connFail → stg ≠ .connFail →
      (fetchData sy pr stg).error = "" ∧ (fetchData sy pr stg).connected = true) ∧
    (∃ c cp, (update (.dataMsg d) m).1.data =
      { d with change := c, changePercent := cp, prevPrice := m.data.price }) := by
  refine ⟨?_, ?_, ?_, ?_, ?_, ?_, ?_⟩
  · rintro (rfl | rfl | rfl)
    · exact ⟨by simp [fetchData], rfl⟩
    · cases sy <;> exact ⟨by simp [fetchData], rfl⟩
    · cases sy <;> cases pr <;> exact ⟨by simp [fetchData], rfl⟩
  · rintro rfl; rfl
  · rintro rfl; cases sy <;> simp [fetchData, emptyData]
  · rintro rfl; cases sy <;> cases pr <;> simp [fetchData, emptyData]
  · intro h; simp [viewKind, h]
  · intro h1 h2 h3
    cases sy <;> cases pr <;> cases stg <;> simp_all [fetchData, emptyData]
  · by_cases hc : 0 < m.data.price ∧ 0 < d.price ∧ m.data.symbol = d.symbol
    · exact ⟨d.price - m.data.price, (d.price - m.data.price) / m.data.price * 100,
        by simp [update, updateData, hc]⟩
    · exact ⟨d.change, d.changePercent, by simp [update, updateData, hc]⟩

/-- Witness for C7: symbol stage succeeds, price stage GET fails. -/
theorem poll_failure_shortcircuit_witness :
    ((fetchData (.ok ⟨"btcusdt", "Bitcoin (BTC)"⟩) .connFail
        (.ok ⟨1, 2, 3⟩)).error ≠ "" ∧
     (fetchData (.ok ⟨"btcusdt", "Bitcoin (BTC)"⟩) .connFail
        (.ok ⟨1, 2, 3⟩)).connected = false) ∧
    ((fetchData (.ok ⟨"btcusdt", "Bitcoin (BTC)"⟩) .connFail
        (.ok ⟨1, 2, 3⟩)).price = 0 ∧
     (fetchData (.ok ⟨"btcusdt", "Bitcoin (BTC)"⟩) .connFail
        (.ok ⟨1, 2, 3⟩)).movingAverage = 0 ∧
     (fetchData (.ok ⟨"btcusdt", "Bitcoin (BTC)"⟩) .connFail
        (.ok ⟨1, 2, 3⟩)).high = 0 ∧
     (fetchData (.ok ⟨"btcusdt", "Bitcoin (BTC)"⟩) .connFail
        (.ok ⟨1, 2, 3⟩)).low = 0) :=
  ⟨(poll_failure_shortcircuit (.ok ⟨"btcusdt", "Bitcoin (BTC)"⟩) .connFail
      (.ok ⟨1, 2, 3⟩) initialModel emptyData).1 (Or.inr (Or.inl rfl)),
   (poll_failure_shortcircuit (.ok ⟨"btcusdt", "Bitcoin (BTC)"⟩) .connFail
      (.ok ⟨1, 2, 3⟩) initialModel emptyData).2.2.1 rfl⟩

/-- Model holding a previous reading of 100 for btcusdt, for C8. -/
def m8 : Model :=
  { initialModel with
    mode := ViewMode.dashboardView,
    data := { emptyData with
      symbol := "btcusdt", coinName := "Bitcoin (BTC)", price := 100,
      connected := true } }

/-- New poll reading of 105 for the unchanged symbol, for C8. -/
def d8 : DashboardData :=
  { emptyData with
    symbol := "btcusdt", coinName := "Bitcoin (BTC)", price := 105,
    connected := true }

/-- C8: change and percent change are computed exactly when the previous
and the new price are both strictly positive and the symbol is unchanged
between the readings — then change is new minus previous and percent
change is change over previous times 100; in every other case both stay
at the zero they arrive with (and every snapshot `fetchData` produces
arrives with change and percent change zero). -/
theorem change_computation (m : Model) (d : DashboardData)
    (hch : d.change = 0) (hchp : d.changePercent = 0) :
    (0 < m.data.price → 0 < d.price → m.data.symbol = d.symbol →
      (update (.dataMsg d) m).1.data.change = d.price - m.data.price ∧
      (update (.dataMsg d) m).1.data.changePercent =
        (d.price - m.data.price) / m.data.price * 100) ∧
    (¬(0 < m.data.price ∧ 0 < d.price ∧ m.data.symbol = d.symbol) →
      (update (.dataMsg d) m).1.data.change = 0 ∧
      (update (.dataMsg d) m).1.data.changePercent = 0) ∧
    (∀ sy pr stg, (fetchData sy pr stg).change = 0 ∧
      (fetchData sy pr stg).changePercent = 0) := by
  refine ⟨?_, ?_, ?_⟩
  · intro h1 h2 h3
    have hc : 0 < m.data.price ∧ 0 < d.price ∧ m.data.symbol = d.symbol := ⟨h1, h2, h3⟩
    simp [update, updateData, hc]
  · intro hc
    simp [update, updateData, hc, hch, hchp]
  · intro sy pr stg
    cases sy <;> cases pr <;> cases stg <;> simp [fetchData, emptyData]

/-- Witness for C8: previous 100, new 105, unchanged symbol — change is
5 and percent change is 5. -/
theorem change_computation_witness :
    (0 : ℚ) < m8.data.price ∧ (0 : ℚ) < d8.price ∧ m8.data.symbol = d8.symbol ∧
    (update (.dataMsg d8) m8).1.data.change = 5 ∧
    (update (.dataMsg d8) m8).1.data.changePercent = 5 := by
  have h := (change_computation m8 d8 rfl rfl).1 (by decide) (by decide) rfl
  refine ⟨by decide, by decide, rfl, ?_, ?_⟩
  · exact h.1.trans (by show (105 : ℚ) - 100 = 5; norm_num)
  · exact h.2.trans (by show ((105 : ℚ) - 100) / 100 * 100 = 5; norm_num)

/-- The glyph loop renders one glyph per sample. -/
theorem sparkGlyphs_length (mn rang : ℚ) (l : List ℚ) (prev : Option ℚ) :
    (sparkGlyphs mn rang l prev).length = l.length := by
  induction l generalizing prev with
  | nil => rfl
  | cons v rest ih => simp [sparkGlyphs, ih]

/-- Pointwise description of the glyph loop: glyph `i` carries the level
of sample `i` and the color from comparing sample `i` with sample
`i - 1` (with the carried-in predecessor at index 0). -/
theorem sparkGlyphs_getD (mn rang : ℚ) (l : List ℚ) (prev : Option ℚ) (i : Nat)
    (hi : i < l.length) :
    (sparkGlyphs mn rang l prev).getD i (0, SparkColor.neutral) =
      (sparkLevel mn rang (l.getD i 0),
       sparkColor (if i = 0 then prev else some (l.getD (i - 1) 0)) (l.getD i 0)) := by
  induction l generalizing prev i with
  | nil => simp at hi
  | cons v rest ih =>
    cases i with
    | zero => simp [sparkGlyphs]
    | succ j =>
      have hj : j < rest.length := by simpa using hi
      simp only [sparkGlyphs, List.getD_cons_succ]
      rw [ih (some v) j hj]
      cases j with
      | zero => simp
      | succ k => simp

/-- Counterexample to C9 as stated: on the history `[0, 10⁻¹⁰]` the
source's rendering (divisor `max - min`, with 1 substituted only when the
range is exactly zero) puts the second sample at the top level 7, while
the spec's formula (divisor `max(1e-9, max - min)`) would put it at level
0 — the two disagree whenever `0 < max - min < 1e-9`. -/
theorem sparkline_divisor_counterexample :
    renderSparkline [0, 1 / 10000000000] =
      .glyphs [(0, .neutral), (7, .up)] ∧
    specSparkline [0, 1 / 10000000000] =
      .glyphs [(0, .neutral), (0, .up)] ∧
    renderSparkline [0, 1 / 10000000000] ≠
      specSparkline [0, 1 / 10000000000] := by
  have h1 : renderSparkline [0, 1 / 10000000000] =
      SparkRender.glyphs [(0, .neutral), (7, .up)] := by
    norm_num [renderSparkline, sparkGlyphs, sparkLevel, sparkColor, List.foldl,
      min_def, max_def]
    decide
  have h2 : specSparkline [0, 1 / 10000000000] =
      SparkRender.glyphs [(0, .neutral), (0, .up)] := by
    norm_num [specSparkline, sparkGlyphs, sparkLevel, sparkColor, List.foldl,
      min_def, max_def]
  exact ⟨h1, h2, by rw [h1, h2]; decide⟩

/-- C9 amended: with fewer than 2 samples the sparkline is the
placeholder; with 2 or more, one glyph per sample whose level is
`(value - min) / r` scaled by 7 and floored (clamped at the top), where
`r` is `max - min`, or 1 when the range is zero (not the spec's
`max(1e-9, max - min)`); each glyph's color compares the sample to its
immediate predecessor: strictly greater is up, strictly less is down,
equal (or no predecessor) is neutral. -/
theorem sparkline_rendering (l : List ℚ) (a b : ℚ) (t : List ℚ) :
    (l.length < 2 → renderSparkline l = .placeholder) ∧
    (∃ gs, renderSparkline (a :: b :: t) = .glyphs gs ∧
      gs.length = (a :: b :: t).length ∧
      ∀ i, i < (a :: b :: t).length →
        gs.getD i (0, SparkColor.neutral) =
          (sparkLevel ((a :: b :: t).foldl min a)
            (if (a :: b :: t).foldl max a - (a :: b :: t).foldl min a = 0 then 1
             else (a :: b :: t).foldl max a - (a :: b :: t).foldl min a)
            ((a :: b :: t).getD i 0),
           sparkColor (if i = 0 then none else some ((a :: b :: t).getD (i - 1) 0))
             ((a :: b :: t).getD i 0))) ∧
    (∀ v : ℚ, sparkColor none v = .neutral) ∧
    (∀ p v : ℚ, p < v → sparkColor (some p) v = .up) ∧
    (∀ p v : ℚ, v < p → sparkColor (some p) v = .down) ∧
    (∀ v : ℚ, sparkColor (some v) v = .neutral) := by
  refine ⟨?_, ?_, fun v => rfl, ?_, ?_, fun v => by simp [sparkColor]⟩
  · intro hl
    match l, hl with
    | [], _ => rfl
    | [x], _ => rfl
  · refine ⟨sparkGlyphs ((a :: b :: t).foldl min a)
      (if (a :: b :: t).foldl max a - (a :: b :: t).foldl min a = 0 then 1
       else (a :: b :: t).foldl max a - (a :: b :: t).foldl min a) (a :: b :: t) none,
      rfl, sparkGlyphs_length _ _ _ _, ?_⟩
    intro i hi
    exact sparkGlyphs_getD _ _ _ none i hi
  · intro p v hpv; simp [sparkColor, hpv]
  · intro p v hvp
    have hnp : ¬p < v := not_lt.mpr (le_of_lt hvp)
    simp [sparkColor, hnp, hvp]

/-- Witness for the amended C9: a single sample renders the placeholder,
a rise is colored up, a drop is colored down. -/
theorem sparkline_rendering_witness :
    (([(5 : ℚ)] : List ℚ).length < 2 ∧ renderSparkline [(5 : ℚ)] = .placeholder) ∧
    ((0 : ℚ) < 5 ∧ sparkColor (some 0) 5 = .up) ∧
    ((3 : ℚ) < 8 ∧ sparkColor (some 8) 3 = .down) :=
  ⟨⟨by decide, (sparkline_rendering [(5 : ℚ)] 10 12 []).1 (by decide)⟩,
   ⟨by decide, (sparkline_rendering [(5 : ℚ)] 10 12 []).2.2.2.1 0 5 (by decide)⟩,
   ⟨by decide, (sparkline_rendering [(5 : ℚ)] 10 12 []).2.2.2.2.1 8 3 (by decide)⟩⟩

/-- One history step of the `dataMsg` case, fully isolated: append a
positive price to the (possibly cleared) history, evicting the head when
the length passes 20, preserves the length bound and positivity. -/
theorem hist_step_inv (h0 : List ℚ) (p : ℚ)
    (hlen : h0.length ≤ 20) (hpos : ∀ x ∈ h0, 0 < x) :
    ((if 0 < p then
        (if 20 < (h0 ++ [p]).length then (h0 ++ [p]).drop 1 else h0 ++ [p])
      else h0).length ≤ 20 ∧
     ∀ x ∈ (if 0 < p then
        (if 20 < (h0 ++ [p]).length then (h0 ++ [p]).drop 1 else h0 ++ [p])
      else h0), 0 < x) := by
  by_cases hp : 0 < p
  · by_cases hov : 20 < (h0 ++ [p]).length
    · refine ⟨?_, ?_⟩
      · rw [if_pos hp, if_pos hov, List.length_drop]
        simp only [List.length_append, List.length_singleton]
        omega
      · rw [if_pos hp, if_pos hov]
        intro x hx
        rcases List.mem_append.mp (List.mem_of_mem_drop hx) with hmem | hmem
        · exact hpos x hmem
        · rw [List.mem_singleton.mp hmem]; exact hp
    · refine ⟨?_, ?_⟩
      · rw [if_pos hp, if_neg hov]
        simp only [not_lt, List.length_append, List.length_singleton] at hov ⊢
        omega
      · rw [if_pos hp, if_neg hov]
        intro x hx
        rcases List.mem_append.mp hx with hmem | hmem
        · exact hpos x hmem
        · rw [List.mem_singleton.mp hmem]; exact hp
  · simpa [hp] using ⟨hlen, hpos⟩

/-- The history produced by the `dataMsg` case, in closed form. -/
theorem updateData_history (d : DashboardData) (m : Model) :
    (updateData d m).history =
      (let h0 := if m.data.symbol ≠ "" ∧ m.data.symbol ≠ d.symbol then [] else m.history
       if 0 < d.price then
         (if 20 < (h0 ++ [d.price]).length then (h0 ++ [d.price]).drop 1
          else h0 ++ [d.price])
       else h0) := rfl

/-- Key handling never touches the price history. -/
theorem updateKey_history (k : String) (m : Model) :
    (updateKey k m).1.history = m.history := by
  unfold updateKey
  cases h : m.mode <;> simp only [h] <;> split_ifs <;> rfl

/-- The coin-list message never touches the price history. -/
theorem update_coins_history (cs : List CoinInfo) (m : Model) :
    (update (.coinsMsg cs) m).1.history = m.history := by
  show ((let m1 := { m with coins := cs };
    match cs.findIdx? (fun c : CoinInfo => c.symbol = m.data.symbol) with
    | some i => ({ m1 with coinCursor := i }, ([] : List Cmd))
    | none => (m1, [])).1.history) = m.history
  cases cs.findIdx? (fun c : CoinInfo => c.symbol = m.data.symbol) <;> rfl

/-- Concrete model for the C10 counterexample: Ethereum held, one
history sample. -/
def histModel : Model :=
  { initialModel with
    mode := ViewMode.dashboardView,
    data := { emptyData with
      symbol := "ethusdt", coinName := "Ethereum (ETH)", price := 100,
      connected := true },
    history := [100] }

/-- A poll result with a non-positive price and a different symbol. -/
def histData : DashboardData :=
  { emptyData with
    symbol := "btcusdt", coinName := "Bitcoin (BTC)", price := 0,
    connected := true }

/-- Counterexample to C10 as stated: a poll result with a non-positive
price does NOT always leave the history unchanged — when its symbol also
differs from the held one, the history is cleared before the
(price-guarded) append is even considered. -/
theorem history_nonpositive_counterexample :
    histData.price ≤ 0 ∧
    (update (.dataMsg histData) histModel).1.history ≠ histModel.history ∧
    (update (.dataMsg histData) histModel).1.history = [] := by
  exact ⟨by decide, by decide, by decide⟩

/-- C10 amended: after every update step the history holds at most 20
entries, all strictly positive; a non-positive price is never appended —
the history is left unchanged unless the result also carries a different
symbol, in which case it is cleared; and a positive-price append onto a
full 20-entry history evicts exactly the oldest entry. -/
theorem history_ring_invariant (m : Model) (msg : Msg) (d : DashboardData)
    (hlen : m.history.length ≤ 20) (hpos : ∀ x ∈ m.history, 0 < x) :
    ((update msg m).1.history.length ≤ 20 ∧
     ∀ x ∈ (update msg m).1.history, 0 < x) ∧
    (d.price ≤ 0 → (m.data.symbol = "" ∨ d.symbol = m.data.symbol) →
      (update (.dataMsg d) m).1.history = m.history) ∧
    (d.price ≤ 0 → m.data.symbol ≠ "" → d.symbol ≠ m.data.symbol →
      (update (.dataMsg d) m).1.history = []) ∧
    (0 < d.price → (m.data.symbol = "" ∨ d.symbol = m.data.symbol) →
      m.history.length = 20 →
      (update (.dataMsg d) m).1.history = m.history.drop 1 ++ [d.price]) := by
  have hcond : ∀ d2 : DashboardData, (m.data.symbol = "" ∨ d2.symbol = m.data.symbol) →
      ¬(m.data.symbol ≠ "" ∧ m.data.symbol ≠ d2.symbol) := by
    rintro d2 (he | he) ⟨h1, h2⟩
    · exact h1 he
    · exact h2 he.symm
  refine ⟨?_, ?_, ?_, ?_⟩
  · cases msg with
    | key k =>
      show (updateKey k m).1.history.length ≤ 20 ∧ ∀ x ∈ (updateKey k m).1.history, 0 < x
      rw [updateKey_history]
      exact ⟨hlen, hpos⟩
    | tickMsg =>
      have h1 : (update .tickMsg m).1 = m := by
        show (if m.mode = ViewMode.dashboardView ∧ ¬m.switching then
          (m, [Cmd.fetchDataCmd, Cmd.tickCmd]) else (m, [Cmd.tickCmd])).1 = m
        split <;> rfl
      rw [h1]
      exact ⟨hlen, hpos⟩
    | dataMsg d2 =>
      show (updateData d2 m).history.length ≤ 20 ∧ ∀ x ∈ (updateData d2 m).history, 0 < x
      rw [updateData_history]
      by_cases hs : m.data.symbol ≠ "" ∧ m.data.symbol ≠ d2.symbol
      · rw [if_pos hs]
        exact hist_step_inv [] d2.price (by simp) (by simp)
      · rw [if_neg hs]
        exact hist_step_inv m.history d2.price hlen hpos
    | coinsMsg cs =>
      rw [update_coins_history]
      exact ⟨hlen, hpos⟩
    | historyMsg ts => exact ⟨hlen, hpos⟩
    | symbolChangedMsg =>
      exact ⟨by show ([] : List ℚ).length ≤ 20; decide,
             fun x hx => absurd hx (List.not_mem_nil x)⟩
  · intro hp hsym
    show (updateData d m).history = m.history
    rw [updateData_history]
    show (if 0 < d.price then _ else _) = m.history
    rw [if_neg (hcond d hsym), if_neg (not_lt.mpr hp)]
  · intro hp hne hdiff
    show (updateData d m).history = []
    rw [updateData_history]
    have hs : m.data.symbol ≠ "" ∧ m.data.symbol ≠ d.symbol :=
      ⟨hne, fun h => hdiff h.symm⟩
    show (if 0 < d.price then _ else _) = []
    rw [if_pos hs, if_neg (not_lt.mpr hp)]
  · intro hp hsym hfull
    show (updateData d m).history = m.history.drop 1 ++ [d.price]
    rw [updateData_history]
    have hov : 20 < (m.history ++ [d.price]).length := by simp [hfull]
    show (if 0 < d.price then _ else _) = m.history.drop 1 ++ [d.price]
    rw [if_neg (hcond d hsym), if_pos hp, if_pos hov,
      List.drop_append_eq_append_drop]
    norm_num [hfull]

/-- Witness for the amended C10: a matching-symbol, non-positive result
leaves the one-sample history untouched, and the invariant holds after a
tick. -/
theorem history_ring_invariant_witness :
    (histModel.history.length ≤ 20 ∧ ∀ x ∈ histModel.history, 0 < x) ∧
    ((update .tickMsg histModel).1.history.length ≤ 20 ∧
     ∀ x ∈ (update .tickMsg histModel).1.history, 0 < x) ∧
    (update (.dataMsg { histData with symbol := "ethusdt" }) histModel).1.history =
      histModel.history :=
  ⟨⟨by decide, by decide⟩,
   (history_ring_invariant histModel .tickMsg histData (by decide) (by decide)).1,
   (history_ring_invariant histModel .tickMsg
       { histData with symbol := "ethusdt" } (by decide) (by decide)).2.1
     (by decide) (Or.inr (by decide))⟩

end SignAlpha
